import Mathlib

/-
Formal model of the MultiModel_RAG query-decomposition pipeline.

Shallow embedding of:
  * `query_decomposer.py` (QueryDecomposer: decompose_query, rerank_chunks,
    combine_answers),
  * `pdf_processor.py` (PDFProcessor.query / query_complex),
  * `vector_store.py` (VectorStore.build_index / search).

Modelling conventions:
  * Python dict chunks become the `Chunk` structure; the keys accessed by the
    code (`content`, `type`, `page_number`, `image_path`, `similarity_score`)
    are fields, with `Option` for keys the code reads via `.get`.
  * Float similarity scores are modelled as `Int`: the pipeline only compares
    scores and defaults missing ones to 0; it never does arithmetic on them.
  * Every external service call (google.generativeai generate_content /
    embed_content, Azure chat completion) is an oracle function supplied as a
    parameter, returning `Except` so that a raised exception is a first-class
    outcome.  The prompt strings assembled around those calls do not influence
    any property proved here (the oracles are universally quantified), so the
    oracles are applied to the raw inputs of the corresponding Python methods.
  * Python `hash(content)`-based dedup is modelled as dedup by `content`
    string equality (equal strings hash equal; the spec itself describes the
    behaviour as exact content equality).
  * `sorted(..., reverse=True)` is modelled by a stable descending insertion
    sort, matching Python's stable sort semantics.
-/

set_option linter.unusedVariables false

/-- An evidence chunk: the Python dict flowing through the pipeline. -/
structure Chunk where
  content : String
  type : String
  page_number : Option Int := none
  image_path : Option String := none
  similarity_score : Option Int := none
deriving DecidableEq, Repr

/-- Model of `chunk.get('similarity_score', 0)`. -/
def simScore (c : Chunk) : Int := c.similarity_score.getD 0

/-- One entry of `sub_query_answers` in `PDFProcessor.query_complex`. -/
structure SubAnswer where
  question : String
  answer : String
  chunks_count : Nat
deriving DecidableEq, Repr

/-- The external text-generation services, as fallible oracles.
`decompGen` is the Gemini call in `QueryDecomposer.decompose_query`,
`geminiGen` the one in `GeminiClient.generate_answer`, `gptGen` the Azure
call in `GPTClient.generate_answer`, `combineGen` the Gemini call in
`QueryDecomposer.combine_answers`.  An `Except.error` value models the call
raising an exception. -/
structure Oracles where
  decompGen : String → Except Unit String
  geminiGen : String → List Chunk → Except String String
  gptGen : String → List Chunk → Except String String
  combineGen : String → List SubAnswer → Except Unit String

/-- Constant `TOP_K_RETRIEVAL` from `config.py`. -/
def TOP_K_RETRIEVAL : Nat := 5

/-- Python `str.strip()`: remove whitespace from both ends.  (Defined by
structural recursion over the character list so that it evaluates inside the
kernel, unlike `String.trim`.) -/
def pyStrip (s : String) : String :=
  ⟨((s.data.dropWhile Char.isWhitespace).reverse.dropWhile Char.isWhitespace).reverse⟩

namespace QueryDecomposer

/-- Model of `re.search(r'\[.*\]', text, re.DOTALL)`: the leftmost-longest match runs
from the first `[` of the text to the last `]` of the text (greedy `.*` with
DOTALL), and a match exists iff some `]` occurs after the first `[`. -/
def extractBracket (s : String) : Option String :=
  let cs := s.data
  match cs.findIdx? (· == '['), cs.reverse.findIdx? (· == ']') with
  | some i, some jr =>
      let j := cs.length - 1 - jr
      if i < j then some ⟨(cs.drop i).take (j + 1 - i)⟩ else none
  | _, _ => none

/-- JSON whitespace. -/
def isJsonWs (c : Char) : Bool := c = ' ' || c = '\t' || c = '\n' || c = '\r'

/-- Drop leading JSON whitespace. -/
def skipWs (l : List Char) : List Char := l.dropWhile isJsonWs

/-- JSON string escape characters (the simple escapes). -/
def escChar : Char → Option Char
  | '"' => some '"'
  | '\\' => some '\\'
  | '/' => some '/'
  | 'b' => some (Char.ofNat 8)
  | 'f' => some (Char.ofNat 12)
  | 'n' => some '\n'
  | 'r' => some '\r'
  | 't' => some '\t'
  | _ => none

/-- Parse the body of a JSON string literal (after the opening quote),
returning the decoded characters and the rest of the input. -/
def strBody : List Char → Option (List Char × List Char)
  | [] => none
  | '"' :: rest => some ([], rest)
  | '\\' :: e :: rest => do
      let c ← escChar e
      let (s, r) ← strBody rest
      pure (c :: s, r)
  | c :: rest => do
      let (s, r) ← strBody rest
      pure (c :: s, r)

/-- Parse one JSON string literal. -/
def parseJStr : List Char → Option (String × List Char)
  | '"' :: rest => (strBody rest).map (fun p => (⟨p.1⟩, p.2))
  | _ => none

/-- Parse the comma-separated items of a JSON array of strings, up to and
including the closing `]`.  `fuel` bounds the number of items. -/
def parseItems : Nat → List Char → Option (List String × List Char)
  | 0, _ => none
  | fuel+1, l => do
      let (s, r) ← parseJStr l
      match skipWs r with
      | ']' :: tail => pure ([s], tail)
      | ',' :: tail => do
          let (ss, t) ← parseItems fuel (skipWs tail)
          pure (s :: ss, t)
      | _ => none

/-- Model of `json.loads` restricted to the fragment the decomposition prompt
requests: a JSON array of string literals (with the simple escapes).  Any
other JSON document is treated as a parse failure, which the caller turns
into the same fallback as a `json.loads` exception. -/
def jsonLoadsList (s : String) : Option (List String) :=
  match skipWs s.data with
  | '[' :: rest =>
      (match skipWs rest with
       | ']' :: tail => if (skipWs tail).isEmpty then some [] else none
       | r => do
           let (items, tail) ← parseItems (r.length + 1) r
           if (skipWs tail).isEmpty then some items else none)
  | _ => none

/-- Model of `QueryDecomposer.decompose_query`: call the generator, strip the response,
extract the first list-literal substring, parse it; on generator exception,
missing list, or parse failure return `[query]`. -/
def decompose_query (o : Oracles) (query : String) : List String :=
  match o.decompGen query with
  | .error _ => [query]
  | .ok raw =>
    match extractBracket (pyStrip raw) with
    | some sub =>
        match jsonLoadsList sub with
        | some sub_queries => sub_queries
        | none => [query]
    | none => [query]

/-- The extraction-and-parse pipeline of `decompose_query` on its own:
`none` exactly when the generator raised, no list-literal substring was
found, or the extracted substring failed to parse. -/
def extractedParse (o : Oracles) (query : String) : Option (List String) :=
  match o.decompGen query with
  | .error _ => none
  | .ok raw => (extractBracket (pyStrip raw)).bind jsonLoadsList

/-- The `seen_content` dedup loop of `rerank_chunks`: keep a chunk iff its
`content` has not been seen before. -/
def dedupSeen (seen : List String) : List Chunk → List Chunk
  | [] => []
  | c :: cs =>
      if c.content ∈ seen then dedupSeen seen cs
      else c :: dedupSeen (c.content :: seen) cs

/-- Stable insertion into a list sorted by non-increasing `simScore`:
the inserted element goes before later elements with an equal score,
matching Python's stable `sorted(..., reverse=True)`. -/
def insertDesc (c : Chunk) : List Chunk → List Chunk
  | [] => [c]
  | d :: ds => if simScore d ≤ simScore c then c :: d :: ds else d :: insertDesc c ds

/-- Stable descending sort by `simScore` (model of
`sorted(unique_chunks, key=lambda x: x.get('similarity_score', 0), reverse=True)`). -/
def sortDesc : List Chunk → List Chunk
  | [] => []
  | c :: cs => insertDesc c (sortDesc cs)

/-- Model of `QueryDecomposer.rerank_chunks`: dedup by content, sort by descending
similarity score, keep the top 8.  `original_query` is accepted but unused,
as in the source. -/
def rerank_chunks (all_chunks : List Chunk) (original_query : String) : List Chunk :=
  (sortDesc (dedupSeen [] all_chunks)).take 8

/-- The body the `combine_answers` fallback accumulates over the records. -/
def fallbackBody : List SubAnswer → String
  | [] => ""
  | qa :: rest => "• " ++ qa.question ++ "\n" ++ qa.answer ++ "\n\n" ++ fallbackBody rest

/-- The local fallback composite of `combine_answers` (the `except` branch). -/
def combineFallback (original_query : String) (sub_query_answers : List SubAnswer) : String :=
  "Based on the analysis of your question '" ++ original_query ++ "':\n\n"
    ++ fallbackBody sub_query_answers

/-- Model of `QueryDecomposer.combine_answers`: ask the generator to synthesize; on
success return the stripped response, on exception return the locally
assembled fallback composite. -/
def combine_answers (o : Oracles) (original_query : String)
    (sub_query_answers : List SubAnswer) : String :=
  match o.combineGen original_query sub_query_answers with
  | .ok t => pyStrip t
  | .error _ => combineFallback original_query sub_query_answers

end QueryDecomposer

namespace GeminiClient

/-- Model of `GeminiClient.generate_answer`: everything is inside one `try`; an
exception becomes the `"Error generating answer: ..."` string.  On success
the raw response text is returned (not stripped). -/
def generate_answer (o : Oracles) (query : String) (context_chunks : List Chunk) : String :=
  match o.geminiGen query context_chunks with
  | .ok t => t
  | .error e => "Error generating answer: " ++ e

end GeminiClient

namespace GPTClient

/-- Model of `GPTClient.generate_answer`: on success the response content is stripped;
an exception becomes the `"❌ Error generating answer: ..."` string. -/
def generate_answer (o : Oracles) (query : String) (context_chunks : List Chunk) : String :=
  match o.gptGen query context_chunks with
  | .ok t => pyStrip t
  | .error e => "❌ Error generating answer: " ++ e

end GPTClient

namespace PDFProcessor

/-- The body of the per-sub-question loop of `query_complex`: retrieve, and
either generate an answer over the retrieved chunks or take the zero-chunk
fallback.  Returns the chunks contributed to `all_chunks_collected` and the
record appended to `sub_query_answers`.  `searchFn` stands for
`self.vector_store.search` (which is total: every internal failure of the
vector store is caught inside it, see `VectorStore.search_isSome`). -/
def subStep (o : Oracles) (searchFn : String → Nat → List Chunk)
    (selected_model : String) (sub_query : String) : List Chunk × SubAnswer :=
  let relevant_chunks := searchFn sub_query TOP_K_RETRIEVAL
  if relevant_chunks.isEmpty then
    ([], { question := sub_query
           answer := "No relevant information found for: " ++ sub_query
           chunks_count := 0 })
  else
    let sub_answer :=
      if selected_model = "GPT" then GPTClient.generate_answer o sub_query relevant_chunks
      else GeminiClient.generate_answer o sub_query relevant_chunks
    (relevant_chunks,
     { question := sub_query, answer := sub_answer, chunks_count := relevant_chunks.length })

/-- Value of `all_chunks_collected` after the loop of `query_complex`. -/
def collectedChunks (o : Oracles) (searchFn : String → Nat → List Chunk)
    (question selected_model : String) : List Chunk :=
  ((QueryDecomposer.decompose_query o question).map
    (fun sq => (subStep o searchFn selected_model sq).1)).flatten

/-- Value of `sub_query_answers` after the loop of `query_complex`. -/
def subAnswersOf (o : Oracles) (searchFn : String → Nat → List Chunk)
    (question selected_model : String) : List SubAnswer :=
  (QueryDecomposer.decompose_query o question).map
    (fun sq => (subStep o searchFn selected_model sq).2)

/-- The image-aggregation loop of `query_complex`: an insertion-ordered dict
keyed by `image_path`, inserting an image chunk only when its path is truthy
(non-`None`, non-empty) and not yet present. -/
def imageDedup (seen : List String) : List Chunk → List Chunk
  | [] => []
  | c :: cs =>
      if c.type = "image" then
        match c.image_path with
        | some p => if p ≠ "" ∧ p ∉ seen then c :: imageDedup (p :: seen) cs
                    else imageDedup seen cs
        | none => imageDedup seen cs
      else imageDedup seen cs

/-- The structured result of `query_complex`. -/
structure QueryResult where
  answer : String
  method : String
  sub_queries : List String
  sub_answers : List SubAnswer
  total_chunks_collected : Nat
  reranked_chunks_used : Nat
  relevant_image_chunks : List Chunk
deriving DecidableEq, Repr

/-- Model of `PDFProcessor.query_complex`. -/
def query_complex (o : Oracles) (searchFn : String → Nat → List Chunk)
    (question selected_model : String) : QueryResult :=
  let sub_queries := QueryDecomposer.decompose_query o question
  let all_chunks_collected := collectedChunks o searchFn question selected_model
  let sub_query_answers := subAnswersOf o searchFn question selected_model
  let reranked_chunks :=
    if all_chunks_collected.isEmpty then []
    else QueryDecomposer.rerank_chunks all_chunks_collected question
  let relevant_image_chunks := imageDedup [] all_chunks_collected
  let final_answer :=
    if !sub_query_answers.isEmpty
        && sub_query_answers.any (fun qa => decide (0 < qa.chunks_count)) then
      QueryDecomposer.combine_answers o question sub_query_answers
    else
      "No relevant information found in the documents to answer your complex query."
  { answer := final_answer
    method := "complex"
    sub_queries := sub_queries
    sub_answers := sub_query_answers
    total_chunks_collected := all_chunks_collected.length
    reranked_chunks_used := reranked_chunks.length
    relevant_image_chunks := relevant_image_chunks }

/-- Model of `PDFProcessor.query`: logs and delegates to `query_complex`. -/
def query (o : Oracles) (searchFn : String → Nat → List Chunk)
    (question selected_model : String) : QueryResult :=
  query_complex o searchFn question selected_model

end PDFProcessor

namespace VectorStore

/-- The vector store state: `self.index` (abstracted to the number of indexed
vectors, `None` before any build) and `self.chunks`. -/
structure State where
  index : Option Nat
  chunks : List Chunk
deriving Repr

/-- Model of `VectorStore.__init__`: no index, no chunks. -/
def init : State := { index := none, chunks := [] }

/-- Model of `VectorStore.build_index`: drop chunks whose stripped content is empty;
if nothing remains, return without touching the state, else replace the
index and the chunk list with the filtered chunks.  (The embedding call per
kept chunk is irrelevant here: its failures are caught inside
`create_embeddings`.) -/
def build_index (vs : State) (chunks : List Chunk) : State :=
  let filtered_chunks := chunks.filter (fun c => pyStrip c.content != "")
  if filtered_chunks.isEmpty then vs
  else { index := some filtered_chunks.length, chunks := filtered_chunks }

/-- Python indexing `l[i]` for an `int` index: non-negative indices from the
front, negative indices from the back, `none` for an IndexError. -/
def pyGet (l : List Chunk) (i : Int) : Option Chunk :=
  if 0 ≤ i then l.get? i.toNat
  else if 0 ≤ (l.length : Int) + i then l.get? ((l.length : Int) + i).toNat
  else none

/-- The result loop of `VectorStore.search` over the `(score, idx)` pairs
returned by the FAISS index: keep pairs with `idx < len(chunks)`, copy the
chunk and attach the score; `none` models an IndexError escaping the loop. -/
def searchLoop (chunks : List Chunk) : List (Int × Int) → Option (List Chunk)
  | [] => some []
  | (s, idx) :: rest =>
      if idx < (chunks.length : Int) then
        match pyGet chunks idx with
        | none => none
        | some c =>
            match searchLoop chunks rest with
            | none => none
            | some out => some ({ c with similarity_score := some s } :: out)
      else searchLoop chunks rest

/-- Model of `VectorStore.search`: empty result when no index was built; otherwise the
result loop over the nearest-neighbour reply `nn`.  The query embedding and
the FAISS call are abstracted into `nn` (an embedding failure is caught
inside `create_query_embedding` and only changes `nn`). -/
def search (vs : State) (nn : List (Int × Int)) (query : String) (top_k : Nat) :
    Option (List Chunk) :=
  match vs.index with
  | none => some []
  | some _ => searchLoop vs.chunks nn

end VectorStore

/-! ## Demonstration data for witnesses and counterexamples -/

/-- Oracle set whose external calls all raise. -/
def oracleRaise : Oracles :=
  { decompGen := fun _ => .error ()
    geminiGen := fun _ _ => .error "service unavailable"
    gptGen := fun _ _ => .error "service unavailable"
    combineGen := fun _ _ => .error () }

/-- Oracle set whose decomposition generator answers with the empty JSON list. -/
def oracleEmptyList : Oracles :=
  { oracleRaise with decompGen := fun _ => .ok "[]" }

/-- Oracle set that decomposes into the two sub-questions A and B and
answers/combines successfully. -/
def oracleAB : Oracles :=
  { decompGen := fun _ => .ok "[\"A\", \"B\"]"
    geminiGen := fun q _ => .ok ("gemini answer to " ++ q)
    gptGen := fun q _ => .ok ("gpt answer to " ++ q)
    combineGen := fun _ _ => .ok " combined final answer " }

/-- Oracle set that decomposes into the single sub-question A but whose
answer generators raise. -/
def oracleGenFail : Oracles :=
  { decompGen := fun _ => .ok "[\"A\"]"
    geminiGen := fun _ _ => .error "boom"
    gptGen := fun _ _ => .error "boom"
    combineGen := fun _ _ => .ok "combined" }

/-- A text chunk. -/
def chunkAlpha : Chunk := { content := "alpha", type := "text", similarity_score := some 3 }

/-- An image chunk. -/
def chunkImg1 : Chunk :=
  { content := "caption one", type := "image", image_path := some "p1.png",
    similarity_score := some 2 }

/-- A second image chunk with the same image path. -/
def chunkImg1b : Chunk :=
  { content := "caption two", type := "image", image_path := some "p1.png",
    similarity_score := some 1 }

/-- A chunk whose content is whitespace only. -/
def chunkBlank : Chunk := { content := "   ", type := "text" }

/-- Retrieval stub: two chunks for sub-question A, nothing otherwise. -/
def searchFnA : String → Nat → List Chunk :=
  fun sq _ => if sq = "A" then [chunkAlpha, chunkImg1] else []

/-- Retrieval stub that always returns nothing. -/
def searchFnNone : String → Nat → List Chunk := fun _ _ => []

/-! ## Substring containment -/

/-- Containment of `needle` as a contiguous substring of `hay`. -/
def strContains (hay needle : String) : Prop :=
  ∃ a b : String, hay = a ++ needle ++ b

theorem strContains_appendLeft (x : String) {m n : String} (h : strContains m n) :
    strContains (x ++ m) n := by
  obtain ⟨a, b, rfl⟩ := h
  exact ⟨x ++ a, b, by simp [String.append_assoc]⟩

theorem strContains_self_append (n x : String) : strContains (n ++ x) n :=
  ⟨"", x, by rw [String.empty_append]⟩

/-! ## Claims C3 and C4: decomposition fallback and non-emptiness -/

/-- C4.  If the decomposition generator raises, or its output contains no
list-literal substring, or the extracted substring fails to parse — which is
exactly `extractedParse o q = none` — then `decompose_query` returns the
one-element fallback `[q]`. -/
theorem C4_decompose_fallback (o : Oracles) (q : String)
    (h : QueryDecomposer.extractedParse o q = none) :
    QueryDecomposer.decompose_query o q = [q] := by
  unfold QueryDecomposer.extractedParse at h
  unfold QueryDecomposer.decompose_query
  cases ho : o.decompGen q with
  | error e => simp [ho]
  | ok raw =>
    simp only [ho] at h ⊢
    cases he : QueryDecomposer.extractBracket (pyStrip raw) with
    | none => simp [he]
    | some sub =>
      simp only [he, Option.some_bind] at h ⊢
      simp [h]

/-- Witness for C4 at a concrete input: a raising generator. -/
theorem C4_decompose_fallback_witness :
    QueryDecomposer.decompose_query oracleRaise "What is X and how does Y work?" =
      ["What is X and how does Y work?"] :=
  C4_decompose_fallback oracleRaise "What is X and how does Y work?" rfl

/-- C3 counterexample: when the generator returns the parseable JSON list
`[]`, `decompose_query` returns the empty sequence, contradicting the claimed
guarantee of a non-empty result. -/
theorem C3_counterexample :
    QueryDecomposer.decompose_query oracleEmptyList "What is X?" = [] := by decide

/-- C3 (amended).  Unless the generator output's extracted list-literal
parses successfully to the empty list, `decompose_query` returns a non-empty
sequence (in every fallback case it returns `[q]`). -/
theorem C3_decompose_nonempty (o : Oracles) (q : String)
    (h : QueryDecomposer.extractedParse o q ≠ some []) :
    QueryDecomposer.decompose_query o q ≠ [] := by
  unfold QueryDecomposer.extractedParse at h
  unfold QueryDecomposer.decompose_query
  cases ho : o.decompGen q with
  | error e => simp [ho]
  | ok raw =>
    simp only [ho] at h ⊢
    cases he : QueryDecomposer.extractBracket (pyStrip raw) with
    | none => simp [he]
    | some sub =>
      simp only [he, Option.some_bind] at h ⊢
      cases hj : QueryDecomposer.jsonLoadsList sub with
      | none => simp [hj]
      | some l =>
        rw [hj] at h
        simp only [hj]
        intro hl
        exact h (by rw [hl])

/-- Witness for C3 at a concrete input: a generator output parsing to a
two-element list. -/
theorem C3_decompose_nonempty_witness :
    QueryDecomposer.decompose_query oracleAB "Compare X and Y" ≠ [] :=
  C3_decompose_nonempty oracleAB "Compare X and Y" (by decide)

/-! ## Claim C2: rerank_chunks guarantees -/

namespace QueryDecomposer

theorem dedupSeen_sublist (seen : List String) (l : List Chunk) :
    List.Sublist (dedupSeen seen l) l := by
  induction l generalizing seen with
  | nil => simp [dedupSeen]
  | cons c cs ih =>
      by_cases h : c.content ∈ seen
      · simpa [dedupSeen, h] using (ih seen).cons c
      · simpa [dedupSeen, h] using (ih (c.content :: seen)).cons₂ c

theorem dedupSeen_find (seen : List String) (l : List Chunk) :
    ∀ c ∈ dedupSeen seen l,
      c.content ∉ seen ∧ l.find? (fun y => y.content == c.content) = some c := by
  induction l generalizing seen with
  | nil => simp [dedupSeen]
  | cons d ds ih =>
      intro c hc
      by_cases hd : d.content ∈ seen
      · simp only [dedupSeen, if_pos hd] at hc
        obtain ⟨hns, hfind⟩ := ih seen c hc
        refine ⟨hns, ?_⟩
        have hne : (d.content == c.content) = false := by
          simp only [beq_eq_false_iff_ne, ne_eq]
          intro he
          exact hns (he ▸ hd)
        rw [List.find?_cons_of_neg ds (by simp [hne]), hfind]
      · simp only [dedupSeen, if_neg hd] at hc
        rcases List.mem_cons.mp hc with rfl | hc
        · exact ⟨hd, List.find?_cons_of_pos ds (by simp)⟩
        · obtain ⟨hns, hfind⟩ := ih (d.content :: seen) c hc
          have hnd : c.content ≠ d.content := fun he => hns (by simp [he])
          have hns' : c.content ∉ seen := fun hm => hns (by simp [hm])
          refine ⟨hns', ?_⟩
          have hne2 : ¬d.content = c.content := fun he => hnd he.symm
          rw [List.find?_cons_of_neg ds (by simp [hne2]), hfind]

theorem dedupSeen_content_pairwise (seen : List String) (l : List Chunk) :
    List.Pairwise (fun a b => a.content ≠ b.content) (dedupSeen seen l) := by
  induction l generalizing seen with
  | nil => simp [dedupSeen]
  | cons d ds ih =>
      by_cases hd : d.content ∈ seen
      · simp only [dedupSeen, if_pos hd]
        exact ih seen
      · simp only [dedupSeen, if_neg hd]
        refine List.Pairwise.cons ?_ (ih (d.content :: seen))
        intro b hb
        have := (dedupSeen_find (d.content :: seen) ds b hb).1
        exact fun he => this (by simp [he])

theorem mem_insertDesc {x c : Chunk} {l : List Chunk} :
    x ∈ insertDesc c l ↔ x = c ∨ x ∈ l := by
  induction l with
  | nil => simp [insertDesc]
  | cons d ds ih =>
      by_cases h : simScore d ≤ simScore c
      · simp [insertDesc, h]
      · simp [insertDesc, h, ih]
        tauto

theorem insertDesc_pairwise (c : Chunk) (l : List Chunk)
    (h : List.Pairwise (fun a b => simScore b ≤ simScore a) l) :
    List.Pairwise (fun a b => simScore b ≤ simScore a) (insertDesc c l) := by
  induction l with
  | nil => simp [insertDesc]
  | cons d ds ih =>
      by_cases hc : simScore d ≤ simScore c
      · simp only [insertDesc, if_pos hc]
        refine List.Pairwise.cons ?_ h
        intro b hb
        rcases List.mem_cons.mp hb with rfl | hb
        · exact hc
        · exact le_trans (List.rel_of_pairwise_cons h hb) hc
      · simp only [insertDesc, if_neg hc]
        refine List.Pairwise.cons ?_ (ih h.of_cons)
        intro b hb
        rcases mem_insertDesc.mp hb with rfl | hb
        · exact le_of_lt (lt_of_not_ge hc)
        · exact List.rel_of_pairwise_cons h hb

theorem insertDesc_perm (c : Chunk) (l : List Chunk) :
    List.Perm (insertDesc c l) (c :: l) := by
  induction l with
  | nil => rfl
  | cons d ds ih =>
      by_cases h : simScore d ≤ simScore c
      · simp [insertDesc, h]
      · simp only [insertDesc, if_neg h]
        exact (ih.cons d).trans (List.Perm.swap c d ds)

theorem sortDesc_perm (l : List Chunk) : List.Perm (sortDesc l) l := by
  induction l with
  | nil => rfl
  | cons c cs ih => exact (insertDesc_perm c (sortDesc cs)).trans (ih.cons c)

theorem sortDesc_pairwise (l : List Chunk) :
    List.Pairwise (fun a b => simScore b ≤ simScore a) (sortDesc l) := by
  induction l with
  | nil => simp [sortDesc]
  | cons c cs ih => exact insertDesc_pairwise c (sortDesc cs) ih

end QueryDecomposer

/-- C2.  For every chunk collection and original question, `rerank_chunks`
returns at most 8 chunks, at most as many as it was given, with pairwise
distinct `content`, each returned chunk being the first chunk of the input
carrying its `content` (first occurrence wins, later duplicates dropped),
sorted by non-increasing similarity score where a missing score counts as 0. -/
theorem C2_rerank_guarantees (all_chunks : List Chunk) (original_query : String) :
    (QueryDecomposer.rerank_chunks all_chunks original_query).length ≤ 8 ∧
    (QueryDecomposer.rerank_chunks all_chunks original_query).length ≤ all_chunks.length ∧
    List.Pairwise (fun a b => a.content ≠ b.content)
      (QueryDecomposer.rerank_chunks all_chunks original_query) ∧
    (∀ c ∈ QueryDecomposer.rerank_chunks all_chunks original_query,
      all_chunks.find? (fun y => y.content == c.content) = some c) ∧
    List.Pairwise (fun a b => simScore b ≤ simScore a)
      (QueryDecomposer.rerank_chunks all_chunks original_query) := by
  unfold QueryDecomposer.rerank_chunks
  have hperm := QueryDecomposer.sortDesc_perm (QueryDecomposer.dedupSeen [] all_chunks)
  have hsub := QueryDecomposer.dedupSeen_sublist [] all_chunks
  refine ⟨?_, ?_, ?_, ?_, ?_⟩
  · simp
  · calc ((QueryDecomposer.sortDesc (QueryDecomposer.dedupSeen [] all_chunks)).take 8).length
        ≤ (QueryDecomposer.sortDesc (QueryDecomposer.dedupSeen [] all_chunks)).length :=
          (List.take_sublist 8 _).length_le
      _ = (QueryDecomposer.dedupSeen [] all_chunks).length := hperm.length_eq
      _ ≤ all_chunks.length := hsub.length_le
  · refine List.Pairwise.sublist (List.take_sublist 8 _) ?_
    exact (hperm.pairwise_iff fun hab he => hab he.symm).mpr
      (QueryDecomposer.dedupSeen_content_pairwise [] all_chunks)
  · intro c hc
    have hc' : c ∈ QueryDecomposer.dedupSeen [] all_chunks :=
      hperm.mem_iff.mp (List.mem_of_mem_take hc)
    exact (QueryDecomposer.dedupSeen_find [] all_chunks c hc').2
  · exact List.Pairwise.sublist (List.take_sublist 8 _)
      (QueryDecomposer.sortDesc_pairwise _)

/-! ## Claim C7: combine_answers failure fallback -/

theorem strContains_appendRight (x : String) {m n : String} (h : strContains m n) :
    strContains (m ++ x) n := by
  obtain ⟨a, b, rfl⟩ := h
  exact ⟨a, b ++ x, by simp [String.append_assoc]⟩

theorem strContains_refl (n : String) : strContains n n :=
  ⟨"", "", by rw [String.empty_append, String.append_empty]⟩

theorem strContains_append_self (x n : String) : strContains (x ++ n) n :=
  ⟨x, "", by rw [String.append_empty]⟩

theorem fallbackBody_contains (sas : List SubAnswer) :
    ∀ r ∈ sas, strContains (QueryDecomposer.fallbackBody sas) r.question ∧
      strContains (QueryDecomposer.fallbackBody sas) r.answer := by
  induction sas with
  | nil => simp
  | cons qa rest ih =>
      intro r hr
      rcases List.mem_cons.mp hr with rfl | hr
      · unfold QueryDecomposer.fallbackBody
        constructor
        · exact strContains_appendRight _ (strContains_appendRight _
            (strContains_appendRight _ (strContains_appendRight _
              (strContains_append_self "• " r.question))))
        · exact strContains_appendRight _ (strContains_appendRight _
            (strContains_append_self _ r.answer))
      · unfold QueryDecomposer.fallbackBody
        constructor
        · exact strContains_appendLeft _ (ih r hr).1
        · exact strContains_appendLeft _ (ih r hr).2

theorem combineFallback_ne_empty (original_query : String) (sas : List SubAnswer) :
    QueryDecomposer.combineFallback original_query sas ≠ "" := by
  intro hcon
  have hd := congrArg String.data hcon
  unfold QueryDecomposer.combineFallback at hd
  simp only [String.data_append] at hd
  simp at hd

/-- C7.  If the recombination generator call raises, `combine_answers`
returns exactly the locally assembled fallback composite — a function of the
question and the records alone, no oracle consulted — which is a non-empty
string containing every sub-question's text and every sub-answer's text as
substrings. -/
theorem C7_combine_failure_fallback (o : Oracles) (original_query : String)
    (sas : List SubAnswer) (hne : sas ≠ [])
    (hfail : o.combineGen original_query sas = Except.error ()) :
    QueryDecomposer.combine_answers o original_query sas =
      QueryDecomposer.combineFallback original_query sas ∧
    QueryDecomposer.combine_answers o original_query sas ≠ "" ∧
    ∀ r ∈ sas,
      strContains (QueryDecomposer.combine_answers o original_query sas) r.question ∧
      strContains (QueryDecomposer.combine_answers o original_query sas) r.answer := by
  have heq : QueryDecomposer.combine_answers o original_query sas =
      QueryDecomposer.combineFallback original_query sas := by
    unfold QueryDecomposer.combine_answers
    rw [hfail]
  refine ⟨heq, heq ▸ combineFallback_ne_empty original_query sas, ?_⟩
  intro r hr
  rw [heq]
  unfold QueryDecomposer.combineFallback
  exact ⟨strContains_appendLeft _ (fallbackBody_contains sas r hr).1,
         strContains_appendLeft _ (fallbackBody_contains sas r hr).2⟩

/-- Witness for C7 at a concrete input: one record, raising combine call. -/
theorem C7_combine_failure_fallback_witness :
    QueryDecomposer.combine_answers oracleRaise "Q" [⟨"sub question", "sub answer", 2⟩] =
      QueryDecomposer.combineFallback "Q" [⟨"sub question", "sub answer", 2⟩] ∧
    QueryDecomposer.combine_answers oracleRaise "Q" [⟨"sub question", "sub answer", 2⟩] ≠ "" ∧
    ∀ r ∈ [(⟨"sub question", "sub answer", 2⟩ : SubAnswer)],
      strContains (QueryDecomposer.combine_answers oracleRaise "Q"
        [⟨"sub question", "sub answer", 2⟩]) r.question ∧
      strContains (QueryDecomposer.combine_answers oracleRaise "Q"
        [⟨"sub question", "sub answer", 2⟩]) r.answer :=
  C7_combine_failure_fallback oracleRaise "Q" [⟨"sub question", "sub answer", 2⟩]
    (by decide) rfl

/-! ## Claims C1, C5, C6, C10: the query_complex orchestration -/

namespace PDFProcessor

theorem subStep_fst_length (o : Oracles) (sf : String → Nat → List Chunk)
    (m sq : String) :
    (subStep o sf m sq).1.length = (subStep o sf m sq).2.chunks_count := by
  unfold subStep
  by_cases h : (sf sq TOP_K_RETRIEVAL).isEmpty
  · simp [h]
  · simp [h]

theorem subStep_question (o : Oracles) (sf : String → Nat → List Chunk)
    (m sq : String) :
    (subStep o sf m sq).2.question = sq := by
  unfold subStep
  by_cases h : (sf sq TOP_K_RETRIEVAL).isEmpty
  · simp [h]
  · simp [h]

theorem collected_length_eq_sum (o : Oracles) (sf : String → Nat → List Chunk)
    (m : String) (l : List String) :
    ((l.map (fun sq => (subStep o sf m sq).1)).flatten).length =
      ((l.map (fun sq => (subStep o sf m sq).2)).map (fun qa => qa.chunks_count)).sum := by
  induction l with
  | nil => rfl
  | cons a t ih =>
      simp only [List.map_cons, List.flatten_cons, List.length_append,
        List.sum_cons, ih, subStep_fst_length]

end PDFProcessor

/-- C1 counterexample: decomposition succeeds into the single sub-question
A, retrieval finds one chunk, but the Gemini answer generation raises.  The
sub-question's record then carries the error-text answer with chunk count 1
— it is not the zero-chunk fallback record, refuting "each sub-question's
failure degrades to that sub-question's zero-chunk fallback only". -/
theorem C1_counterexample :
    (PDFProcessor.query_complex oracleGenFail
        (fun sq _ => if sq = "A" then [chunkAlpha] else []) "Q" "Gemini").sub_answers =
      [{ question := "A", answer := "Error generating answer: boom", chunks_count := 1 }] ∧
    ({ question := "A", answer := "Error generating answer: boom", chunks_count := 1 }
        : SubAnswer) ≠
      { question := "A", answer := "No relevant information found for: A",
        chunks_count := 0 } :=
  ⟨by decide, by decide⟩

/-- C1 (amended).  The entry point `query` is exactly `query_complex`, a
total function of its oracles — no exception escapes under any combination
of decomposition, retrieval or generation outcomes — and the sub-answer
records are an independent map over the decomposed sub-questions: each
record depends only on its own sub-question's retrieval and generation call
(so one sub-question's failure cannot abort or alter the others), an empty
retrieval degrades to that sub-question's zero-chunk fallback record, and a
generation failure degrades to an error-text answer for that sub-question
with its retrieved chunk count. -/
theorem C1_entry_total_and_isolated (o : Oracles) (sf : String → Nat → List Chunk)
    (q m : String) :
    PDFProcessor.query o sf q m = PDFProcessor.query_complex o sf q m ∧
    (PDFProcessor.query_complex o sf q m).sub_answers =
      (QueryDecomposer.decompose_query o q).map (fun sq =>
        if (sf sq TOP_K_RETRIEVAL).isEmpty then
          { question := sq, answer := "No relevant information found for: " ++ sq,
            chunks_count := 0 }
        else
          { question := sq,
            answer :=
              if m = "GPT" then GPTClient.generate_answer o sq (sf sq TOP_K_RETRIEVAL)
              else GeminiClient.generate_answer o sq (sf sq TOP_K_RETRIEVAL),
            chunks_count := (sf sq TOP_K_RETRIEVAL).length }) := by
  refine ⟨rfl, ?_⟩
  show PDFProcessor.subAnswersOf o sf q m = _
  unfold PDFProcessor.subAnswersOf PDFProcessor.subStep
  simp only [apply_ite Prod.snd]

/-- C5.  If retrieval returns no chunks for the i-th sub-question, its
record is the zero-chunk fallback record: chunk count 0 and the fixed
fallback text naming that sub-question.  The conclusion holds for every
oracle set — in particular it does not depend on the answer generators,
which is the formal content of "no answer generator is invoked". -/
theorem C5_zero_chunk_fallback (o : Oracles) (sf : String → Nat → List Chunk)
    (q m : String) (i : Nat) (sq : String)
    (hq : (QueryDecomposer.decompose_query o q)[i]? = some sq)
    (hs : sf sq TOP_K_RETRIEVAL = []) :
    (PDFProcessor.query_complex o sf q m).sub_answers[i]? =
      some { question := sq, answer := "No relevant information found for: " ++ sq,
             chunks_count := 0 } := by
  have hrw : (PDFProcessor.query_complex o sf q m).sub_answers =
      (QueryDecomposer.decompose_query o q).map
        (fun s => (PDFProcessor.subStep o sf m s).2) := rfl
  rw [hrw, List.getElem?_map, hq]
  simp [PDFProcessor.subStep, hs]

/-- Witness for C5: sub-question B (index 1) retrieves nothing. -/
theorem C5_zero_chunk_fallback_witness :
    (PDFProcessor.query_complex oracleAB searchFnA "Q" "Gemini").sub_answers[1]? =
      some { question := "B", answer := "No relevant information found for: B",
             chunks_count := 0 } :=
  C5_zero_chunk_fallback oracleAB searchFnA "Q" "Gemini" 1 "B" (by decide) (by decide)

/-- C6.  If every decomposed sub-question retrieves zero chunks, the final
answer is the fixed no-relevant-information message.  The conclusion holds
for every oracle set — in particular it does not depend on `combineGen`,
which is the formal content of "combine_answers is never invoked". -/
theorem C6_all_empty_fixed_message (o : Oracles) (sf : String → Nat → List Chunk)
    (q m : String)
    (h : ∀ sq ∈ QueryDecomposer.decompose_query o q, sf sq TOP_K_RETRIEVAL = []) :
    (PDFProcessor.query_complex o sf q m).answer =
      "No relevant information found in the documents to answer your complex query." := by
  have hany : (PDFProcessor.subAnswersOf o sf q m).any
      (fun qa => decide (0 < qa.chunks_count)) = false := by
    apply List.any_eq_false.mpr
    intro qa hqa
    unfold PDFProcessor.subAnswersOf at hqa
    obtain ⟨sq, hsq, rfl⟩ := List.mem_map.mp hqa
    simp [PDFProcessor.subStep, h sq hsq]
  have hrw : (PDFProcessor.query_complex o sf q m).answer =
      (if !(PDFProcessor.subAnswersOf o sf q m).isEmpty
          && (PDFProcessor.subAnswersOf o sf q m).any (fun qa => decide (0 < qa.chunks_count))
        then QueryDecomposer.combine_answers o q (PDFProcessor.subAnswersOf o sf q m)
        else
          "No relevant information found in the documents to answer your complex query.") :=
    rfl
  rw [hrw, hany, Bool.and_false, if_neg (by simp)]

/-- Witness for C6: both sub-questions retrieve nothing. -/
theorem C6_all_empty_fixed_message_witness :
    (PDFProcessor.query_complex oracleAB searchFnNone "Q" "Gemini").answer =
      "No relevant information found in the documents to answer your complex query." :=
  C6_all_empty_fixed_message oracleAB searchFnNone "Q" "Gemini" (fun _ _ => rfl)

/-- C10.  The returned `total_chunks_collected` equals the sum of the
`chunks_count` fields over the returned records, and the records' questions
are exactly the sub-questions in decomposition order (hence equal counts,
same order). -/
theorem C10_result_invariants (o : Oracles) (sf : String → Nat → List Chunk)
    (q m : String) :
    (PDFProcessor.query_complex o sf q m).total_chunks_collected =
      ((PDFProcessor.query_complex o sf q m).sub_answers.map
        (fun qa => qa.chunks_count)).sum ∧
    (PDFProcessor.query_complex o sf q m).sub_answers.map (fun qa => qa.question) =
      (PDFProcessor.query_complex o sf q m).sub_queries := by
  constructor
  · show (PDFProcessor.collectedChunks o sf q m).length = _
    unfold PDFProcessor.collectedChunks
    exact PDFProcessor.collected_length_eq_sum o sf m (QueryDecomposer.decompose_query o q)
  · show (PDFProcessor.subAnswersOf o sf q m).map (fun qa => qa.question) =
      QueryDecomposer.decompose_query o q
    unfold PDFProcessor.subAnswersOf
    rw [List.map_map]
    have hf : ((fun qa : SubAnswer => qa.question) ∘
        fun sq => (PDFProcessor.subStep o sf m sq).2) = id :=
      funext fun sq => PDFProcessor.subStep_question o sf m sq
    rw [hf, List.map_id]

/-! ## Claim C8: image aggregation -/

namespace PDFProcessor

theorem imageDedup_sublist (seen : List String) (l : List Chunk) :
    List.Sublist (imageDedup seen l) l := by
  induction l generalizing seen with
  | nil => simp [imageDedup]
  | cons c cs ih =>
      unfold imageDedup
      by_cases ht : c.type = "image"
      · simp only [if_pos ht]
        cases hp : c.image_path with
        | none => exact (ih seen).cons c
        | some p =>
            by_cases hcond : p ≠ "" ∧ p ∉ seen
            · simp only [if_pos hcond]
              exact (ih (p :: seen)).cons₂ c
            · simp only [if_neg hcond]
              exact (ih seen).cons c
      · simp only [if_neg ht]
        exact (ih seen).cons c

theorem imageDedup_mem (seen : List String) (l : List Chunk) :
    ∀ c ∈ imageDedup seen l,
      c.type = "image" ∧ ∃ p, c.image_path = some p ∧ p ≠ "" ∧ p ∉ seen := by
  induction l generalizing seen with
  | nil => simp [imageDedup]
  | cons d cs ih =>
      intro c hc
      unfold imageDedup at hc
      by_cases ht : d.type = "image"
      · rw [if_pos ht] at hc
        cases hp : d.image_path with
        | none =>
            rw [hp] at hc
            exact ih seen c hc
        | some p =>
            simp only [hp] at hc
            by_cases hcond : p ≠ "" ∧ p ∉ seen
            · rw [if_pos hcond] at hc
              rcases List.mem_cons.mp hc with rfl | hc
              · exact ⟨ht, p, hp, hcond.1, hcond.2⟩
              · obtain ⟨h1, p', hp', hne, hnotin⟩ := ih (p :: seen) c hc
                exact ⟨h1, p', hp', hne, fun hm => hnotin (List.mem_cons_of_mem _ hm)⟩
            · rw [if_neg hcond] at hc
              exact ih seen c hc
      · rw [if_neg ht] at hc
        exact ih seen c hc

theorem imageDedup_path_pairwise (seen : List String) (l : List Chunk) :
    List.Pairwise (fun a b => a.image_path ≠ b.image_path) (imageDedup seen l) := by
  induction l generalizing seen with
  | nil => simp [imageDedup]
  | cons d cs ih =>
      unfold imageDedup
      by_cases ht : d.type = "image"
      · simp only [if_pos ht]
        cases hp : d.image_path with
        | none => exact ih seen
        | some p =>
            by_cases hcond : p ≠ "" ∧ p ∉ seen
            · simp only [if_pos hcond]
              refine List.Pairwise.cons ?_ (ih (p :: seen))
              intro b hb
              obtain ⟨-, p', hp', -, hnotin⟩ := imageDedup_mem (p :: seen) cs b hb
              rw [hp, hp']
              intro he
              apply hnotin
              rw [← Option.some.inj he]
              exact List.mem_cons_self p seen
            · simp only [if_neg hcond]
              exact ih seen
      · simp only [if_neg ht]
        exact ih seen

theorem imageDedup_find (seen : List String) (l : List Chunk)
    (himg : ∀ c ∈ l, c.type = "image" → c.image_path ≠ none ∧ c.image_path ≠ some "")
    (hnon : ∀ c ∈ l, c.type ≠ "image" → c.image_path = none) :
    ∀ c ∈ imageDedup seen l, ∃ p, c.image_path = some p ∧ p ∉ seen ∧
      l.find? (fun y => y.image_path == some p) = some c := by
  induction l generalizing seen with
  | nil => simp [imageDedup]
  | cons d cs ih =>
      intro c hc
      have himg' : ∀ x ∈ cs, x.type = "image" → x.image_path ≠ none ∧ x.image_path ≠ some "" :=
        fun x hx => himg x (List.mem_cons_of_mem d hx)
      have hnon' : ∀ x ∈ cs, x.type ≠ "image" → x.image_path = none :=
        fun x hx => hnon x (List.mem_cons_of_mem d hx)
      unfold imageDedup at hc
      by_cases ht : d.type = "image"
      · rw [if_pos ht] at hc
        have hii := himg d (List.mem_cons_self d cs) ht
        cases hpd : d.image_path with
        | none => exact absurd hpd hii.1
        | some pd =>
            simp only [hpd] at hc
            have hpdne : pd ≠ "" := fun he => hii.2 (by rw [hpd, he])
            by_cases hin : pd ∈ seen
            · have hcond : ¬(pd ≠ "" ∧ pd ∉ seen) := fun hcc => hcc.2 hin
              rw [if_neg hcond] at hc
              obtain ⟨p, hp, hnotin, hfind⟩ := ih seen himg' hnon' c hc
              refine ⟨p, hp, hnotin, ?_⟩
              have hne : p ≠ pd := fun he => hnotin (he ▸ hin)
              rw [List.find?_cons_of_neg cs
                (by simp [hpd]; exact fun he => hne he.symm), hfind]
            · have hcond : pd ≠ "" ∧ pd ∉ seen := ⟨hpdne, hin⟩
              rw [if_pos hcond] at hc
              rcases List.mem_cons.mp hc with rfl | hc
              · refine ⟨pd, hpd, hin, ?_⟩
                exact List.find?_cons_of_pos cs (by simp [hpd])
              · obtain ⟨p, hp, hnotin, hfind⟩ := ih (pd :: seen) himg' hnon' c hc
                have hpne : p ≠ pd :=
                  fun he => hnotin (by rw [he]; exact List.mem_cons_self pd seen)
                refine ⟨p, hp, fun hm => hnotin (List.mem_cons_of_mem _ hm), ?_⟩
                rw [List.find?_cons_of_neg cs
                  (by simp [hpd]; exact fun he => hpne he.symm), hfind]
      · rw [if_neg ht] at hc
        obtain ⟨p, hp, hnotin, hfind⟩ := ih seen himg' hnon' c hc
        refine ⟨p, hp, hnotin, ?_⟩
        have hdn := hnon d (List.mem_cons_self d cs) ht
        rw [List.find?_cons_of_neg cs (by simp [hdn]), hfind]

theorem imageDedup_complete (seen : List String) (l : List Chunk) :
    ∀ c ∈ l, c.type = "image" → ∀ p, c.image_path = some p → p ≠ "" →
      p ∈ seen ∨ ∃ d ∈ imageDedup seen l, d.image_path = some p := by
  induction l generalizing seen with
  | nil => simp
  | cons d cs ih =>
      intro c hc ht p hp hpne
      unfold imageDedup
      by_cases htd : d.type = "image"
      · simp only [if_pos htd]
        cases hpd : d.image_path with
        | none =>
            rcases List.mem_cons.mp hc with rfl | hc'
            · simp [hp] at hpd
            · exact ih seen c hc' ht p hp hpne
        | some pd =>
            by_cases hcond : pd ≠ "" ∧ pd ∉ seen
            · simp only [if_pos hcond]
              rcases List.mem_cons.mp hc with rfl | hc'
              · right
                exact ⟨c, List.mem_cons_self c _, hp⟩
              · rcases ih (pd :: seen) c hc' ht p hp hpne with hmem | ⟨d', hd', hp'⟩
                · rcases List.mem_cons.mp hmem with rfl | hmem'
                  · right
                    exact ⟨d, List.mem_cons_self d _, hpd⟩
                  · left
                    exact hmem'
                · right
                  exact ⟨d', List.mem_cons_of_mem _ hd', hp'⟩
            · simp only [if_neg hcond]
              rcases List.mem_cons.mp hc with rfl | hc'
              · have hppd : p = pd := by
                  rw [hp] at hpd
                  exact Option.some.inj hpd
                left
                rcases not_and_or.mp hcond with h1 | h2
                · exact absurd (hppd.trans (not_not.mp h1)) hpne
                · rw [hppd]
                  exact not_not.mp h2
              · exact ih seen c hc' ht p hp hpne
      · simp only [if_neg htd]
        rcases List.mem_cons.mp hc with rfl | hc'
        · exact absurd ht htd
        · exact ih seen c hc' ht p hp hpne

end PDFProcessor

/-- C8.  `relevant_image_chunks` is computed from all accumulated pre-rerank
chunks: it is an order-preserving selection (sublist) of the collected
chunks consisting only of image-type chunks, with pairwise distinct image
paths, each returned chunk being the first collected chunk carrying its
path, and containing one representative for every truthy image path of an
image chunk in the collection.  The hypotheses state the spec's data-model
invariant: an image chunk carries a non-empty `image_path`, a non-image
chunk carries none. -/
theorem C8_image_aggregation (o : Oracles) (sf : String → Nat → List Chunk)
    (q m : String)
    (himg : ∀ c ∈ PDFProcessor.collectedChunks o sf q m, c.type = "image" →
        c.image_path ≠ none ∧ c.image_path ≠ some "")
    (hnon : ∀ c ∈ PDFProcessor.collectedChunks o sf q m, c.type ≠ "image" →
        c.image_path = none) :
    List.Sublist (PDFProcessor.query_complex o sf q m).relevant_image_chunks
      (PDFProcessor.collectedChunks o sf q m) ∧
    (∀ c ∈ (PDFProcessor.query_complex o sf q m).relevant_image_chunks,
       c.type = "image") ∧
    List.Pairwise (fun a b => a.image_path ≠ b.image_path)
      (PDFProcessor.query_complex o sf q m).relevant_image_chunks ∧
    (∀ c ∈ (PDFProcessor.query_complex o sf q m).relevant_image_chunks,
       ∃ p, c.image_path = some p ∧
         (PDFProcessor.collectedChunks o sf q m).find?
           (fun y => y.image_path == some p) = some c) ∧
    (∀ c ∈ PDFProcessor.collectedChunks o sf q m, c.type = "image" →
       ∀ p, c.image_path = some p →
         ∃ d ∈ (PDFProcessor.query_complex o sf q m).relevant_image_chunks,
           d.image_path = some p) := by
  have hrw : (PDFProcessor.query_complex o sf q m).relevant_image_chunks =
      PDFProcessor.imageDedup [] (PDFProcessor.collectedChunks o sf q m) := rfl
  rw [hrw]
  refine ⟨PDFProcessor.imageDedup_sublist [] _, ?_, ?_, ?_, ?_⟩
  · exact fun c hc => (PDFProcessor.imageDedup_mem [] _ c hc).1
  · exact PDFProcessor.imageDedup_path_pairwise [] _
  · intro c hc
    obtain ⟨p, hp, -, hfind⟩ := PDFProcessor.imageDedup_find [] _ himg hnon c hc
    exact ⟨p, hp, hfind⟩
  · intro c hc ht p hp
    have hpne : p ≠ "" := by
      intro he
      exact (himg c hc ht).2 (by rw [hp, he])
    rcases PDFProcessor.imageDedup_complete [] _ c hc ht p hp hpne with hmem | hex
    · cases hmem
    · exact hex

/-- Retrieval stub whose two sub-questions both surface chunks for the image
path p1.png. -/
def searchFnImg : String → Nat → List Chunk :=
  fun sq _ => if sq = "A" then [chunkImg1, chunkAlpha] else [chunkImg1b]

/-- Witness for C8: both sub-questions return a chunk with image path
p1.png; the aggregation keeps exactly the first. -/
theorem C8_image_aggregation_witness :
    List.Sublist (PDFProcessor.query_complex oracleAB searchFnImg "Q" "Gemini").relevant_image_chunks
      (PDFProcessor.collectedChunks oracleAB searchFnImg "Q" "Gemini") ∧
    (∀ c ∈ (PDFProcessor.query_complex oracleAB searchFnImg "Q" "Gemini").relevant_image_chunks,
       c.type = "image") ∧
    List.Pairwise (fun a b => a.image_path ≠ b.image_path)
      (PDFProcessor.query_complex oracleAB searchFnImg "Q" "Gemini").relevant_image_chunks ∧
    (∀ c ∈ (PDFProcessor.query_complex oracleAB searchFnImg "Q" "Gemini").relevant_image_chunks,
       ∃ p, c.image_path = some p ∧
         (PDFProcessor.collectedChunks oracleAB searchFnImg "Q" "Gemini").find?
           (fun y => y.image_path == some p) = some c) ∧
    (∀ c ∈ PDFProcessor.collectedChunks oracleAB searchFnImg "Q" "Gemini", c.type = "image" →
       ∀ p, c.image_path = some p →
         ∃ d ∈ (PDFProcessor.query_complex oracleAB searchFnImg "Q" "Gemini").relevant_image_chunks,
           d.image_path = some p) :=
  C8_image_aggregation oracleAB searchFnImg "Q" "Gemini" (by decide) (by decide)

/-! ## Claim C9: empty-content chunks never enter the index -/

namespace VectorStore

theorem pyGet_mem {l : List Chunk} {i : Int} {a : Chunk}
    (h : pyGet l i = some a) : a ∈ l := by
  unfold pyGet at h
  split_ifs at h
  · exact List.get?_mem h
  · exact List.get?_mem h

theorem searchLoop_content (chunks : List Chunk) (nn : List (Int × Int))
    (out : List Chunk) (h : searchLoop chunks nn = some out) :
    ∀ c ∈ out, ∃ d ∈ chunks, c.content = d.content := by
  induction nn generalizing out with
  | nil =>
      obtain rfl : ([] : List Chunk) = out := by simpa [searchLoop] using h
      simp
  | cons head rest ih =>
      obtain ⟨s, idx⟩ := head
      unfold searchLoop at h
      by_cases hidx : idx < (chunks.length : Int)
      · rw [if_pos hidx] at h
        cases hpg : pyGet chunks idx with
        | none => rw [hpg] at h; cases h
        | some d0 =>
            rw [hpg] at h
            cases hsl : searchLoop chunks rest with
            | none => rw [hsl] at h; cases h
            | some out' =>
                rw [hsl] at h
                obtain rfl : { d0 with similarity_score := some s } :: out' = out :=
                  Option.some.inj h
                intro c hc
                rcases List.mem_cons.mp hc with rfl | hc
                · exact ⟨d0, pyGet_mem hpg, rfl⟩
                · exact ih out' hsl c hc
      · rw [if_neg hidx] at h
        exact ih out h

end VectorStore

/-- C9.  Building the index excludes every chunk whose content strips to the
empty string: the chunk list installed by `build_index` contains only
non-empty-content chunks (given the store's previous chunk list already
satisfied the invariant, as the fresh store trivially does), an
empty-content chunk is never in the installed list, and every chunk
surfaced by `search` — for any nearest-neighbour reply — has non-empty
stripped content.  The invariant is established at build time; `search`
performs no content filtering. -/
theorem C9_index_content_invariant (vs : VectorStore.State) (chunks : List Chunk)
    (hvs : ∀ c ∈ vs.chunks, pyStrip c.content ≠ "") :
    (∀ c ∈ (VectorStore.build_index vs chunks).chunks, pyStrip c.content ≠ "") ∧
    (∀ c ∈ chunks, pyStrip c.content = "" →
       c ∉ (VectorStore.build_index vs chunks).chunks) ∧
    (∀ (nn : List (Int × Int)) (q : String) (k : Nat) (out : List Chunk),
       VectorStore.search (VectorStore.build_index vs chunks) nn q k = some out →
       ∀ c ∈ out, pyStrip c.content ≠ "") := by
  have hchunks : ∀ c ∈ (VectorStore.build_index vs chunks).chunks,
      pyStrip c.content ≠ "" := by
    unfold VectorStore.build_index
    by_cases hf : (chunks.filter (fun c => pyStrip c.content != "")).isEmpty
    · simp only [if_pos hf]
      exact hvs
    · simp only [if_neg hf]
      intro c hc
      simpa using (List.mem_filter.mp hc).2
  refine ⟨hchunks, ?_, ?_⟩
  · intro c hc hempty hmem
    exact hchunks c hmem hempty
  · intro nn q k out hout c hc
    unfold VectorStore.search at hout
    cases hidx : (VectorStore.build_index vs chunks).index with
    | none =>
        rw [hidx] at hout
        obtain rfl : ([] : List Chunk) = out := Option.some.inj hout
        cases hc
    | some n =>
        rw [hidx] at hout
        obtain ⟨d, hd, hcd⟩ := VectorStore.searchLoop_content _ _ _ hout c hc
        rw [hcd]
        exact hchunks d hd

/-- Witness for C9: a fresh store, one blank chunk and one real chunk. -/
theorem C9_index_content_invariant_witness :
    (∀ c ∈ (VectorStore.build_index VectorStore.init [chunkBlank, chunkAlpha]).chunks,
       pyStrip c.content ≠ "") ∧
    (∀ c ∈ [chunkBlank, chunkAlpha], pyStrip c.content = "" →
       c ∉ (VectorStore.build_index VectorStore.init [chunkBlank, chunkAlpha]).chunks) ∧
    (∀ (nn : List (Int × Int)) (q : String) (k : Nat) (out : List Chunk),
       VectorStore.search (VectorStore.build_index VectorStore.init
         [chunkBlank, chunkAlpha]) nn q k = some out →
       ∀ c ∈ out, pyStrip c.content ≠ "") :=
  C9_index_content_invariant VectorStore.init [chunkBlank, chunkAlpha]
    (by intro c hc; cases hc)

namespace VectorStore

theorem pyGet_isSome {l : List Chunk} {i : Int} (hl : l ≠ [])
    (h1 : -1 ≤ i) (h2 : i < (l.length : Int)) : (pyGet l i).isSome := by
  unfold pyGet
  by_cases h0 : 0 ≤ i
  · rw [if_pos h0]
    have hn : i.toNat < l.length := by omega
    rw [List.get?_eq_get hn]
    simp
  · have hi : i = -1 := by omega
    subst hi
    rw [if_neg h0]
    have hlen : 0 < l.length := List.length_pos.mpr hl
    have hge : (0 : Int) ≤ (l.length : Int) + (-1) := by omega
    rw [if_pos hge]
    have hn : ((l.length : Int) + (-1)).toNat < l.length := by omega
    rw [List.get?_eq_get hn]
    simp

theorem searchLoop_isSome (chunks : List Chunk) (hl : chunks ≠ []) :
    ∀ (nn : List (Int × Int)), (∀ pr ∈ nn, -1 ≤ pr.2) → (searchLoop chunks nn).isSome := by
  intro nn
  induction nn with
  | nil =>
      intro _
      simp [searchLoop]
  | cons head rest ih =>
      intro hnn
      obtain ⟨s, idx⟩ := head
      unfold searchLoop
      by_cases hlt : idx < (chunks.length : Int)
      · rw [if_pos hlt]
        have h1 : -1 ≤ idx := hnn (s, idx) (List.mem_cons_self _ _)
        obtain ⟨d, hd⟩ := Option.isSome_iff_exists.mp (pyGet_isSome hl h1 hlt)
        obtain ⟨out, hout⟩ := Option.isSome_iff_exists.mp
          (ih (fun pr hpr => hnn pr (List.mem_cons_of_mem _ hpr)))
        simp only [hd, hout]
        rfl
      · rw [if_neg hlt]
        exact ih (fun pr hpr => hnn pr (List.mem_cons_of_mem _ hpr))

/-- FAISS returns indices in `[-1, ntotal)` (`-1` marking an unfilled slot),
and an index is only installed together with a non-empty chunk list; under
that contract `VectorStore.search` never hits an IndexError, which is why
the orchestrator model may take its retrieval function to be total. -/
theorem search_isSome (vs : State) (nn : List (Int × Int)) (q : String) (k : Nat)
    (hne : vs.index.isSome → vs.chunks ≠ [])
    (hnn : ∀ pr ∈ nn, -1 ≤ pr.2) :
    (search vs nn q k).isSome := by
  unfold search
  cases hidx : vs.index with
  | none => simp
  | some n =>
      have hl : vs.chunks ≠ [] := hne (by rw [hidx]; rfl)
      exact searchLoop_isSome vs.chunks hl nn hnn

end VectorStore
